import Mathlib

/-!
Verification development for the extraction pipeline of
`src/search_puppeteer.js` (single-page scraper).

The JavaScript source applies fixed regular expressions with JavaScript
`String.prototype.match` semantics (leftmost match, greedy backtracking,
global non-overlapping iteration).  We embed this shallowly: a small
regex AST `RE` together with a backtracking matcher `runRE` that
enumerates the alternatives of a match in exactly the JavaScript
preference order (alternation left first, quantifiers greedy).  The
matcher is structurally recursive on a fuel argument so that every
definition is executable by the kernel; the fuel supplied by the
wrappers strictly dominates the recursion depth, which is bounded
lexicographically by (remaining input, pattern size).

Strings are modelled as `List Char` internally (`String.data`); all the
inputs of interest are ASCII, and the JavaScript `\s` / `trim` character
sets are modelled by their ASCII portion.
-/

namespace SearchPuppeteer

/-! ### Character classes of the patterns (from the JS regex literals) -/

/-- ASCII portion of the JavaScript `\s` class (and of the `trim` set). -/
def isSpaceJS (c : Char) : Bool :=
  c = ' ' || c = '\t' || c = '\n' || c = '\r' || c = '\x0b' || c = '\x0c'

/-- The class `[-.\s]` used by the phone pattern and phone normalization. -/
def isPhoneSep (c : Char) : Bool :=
  c = '-' || c = '.' || isSpaceJS c

/-- `[a-zA-Z0-9._%+-]` (email local part). -/
def emailLocalChar (c : Char) : Bool :=
  c.isAlpha || c.isDigit || c = '.' || c = '_' || c = '%' || c = '+' || c = '-'

/-- `[a-zA-Z0-9.-]` (email domain). -/
def domainChar (c : Char) : Bool :=
  c.isAlpha || c.isDigit || c = '.' || c = '-'

/-- `[1-9]`. -/
def digitNZ (c : Char) : Bool :=
  '1' ≤ c && c ≤ '9'

/-- JavaScript `\w` = `[A-Za-z0-9_]`. -/
def wordChar (c : Char) : Bool :=
  c.isAlpha || c.isDigit || c = '_'

/-! ### Regex AST and backtracking matcher -/

/-- Regex abstract syntax: enough for the five patterns of the source.
`cls` is a single character from a class, `star` is greedy Kleene star,
`alt` prefers its left branch, `boundary` is the zero-width `\b`. -/
inductive RE where
  | eps : RE
  | cls (p : Char → Bool) : RE
  | seq (a b : RE) : RE
  | alt (a b : RE) : RE
  | star (a : RE) : RE
  | boundary : RE

/-- Size of a pattern, used only to compute a sufficient fuel. -/
def sizeRE : RE → Nat
  | .eps => 1
  | .cls _ => 1
  | .seq a b => sizeRE a + sizeRE b + 1
  | .alt a b => sizeRE a + sizeRE b + 1
  | .star a => sizeRE a + 1
  | .boundary => 1

/-- `\b` holds when exactly one of the neighbouring characters is a word
character (string ends count as non-word). -/
def boundaryAt (prev : Option Char) (s : List Char) : Bool :=
  (match prev with | some c => wordChar c | none => false)
    != (match s with | c :: _ => wordChar c | [] => false)

/--
All ways to match pattern `r` at the start of `s`, as pairs
(last consumed character or the incoming `prev`, remaining suffix),
listed in JavaScript backtracking preference order: the head of the
list is the alternative a JavaScript engine commits to first.
Greedy `star` tries one more (progress-making) iteration before
stopping, mirroring ECMAScript RepeatMatcher.  The fuel dominates the
recursion depth, which decreases lexicographically in
(|s|, pattern size): `seq`/`alt`/`star`-body descend into a smaller
pattern, and a `star` re-entry strictly consumes input (the progress
filter).
-/
def runRE : Nat → RE → Option Char → List Char → List (Option Char × List Char)
  | 0, _, _, _ => []
  | _ + 1, .eps, prev, s => [(prev, s)]
  | _ + 1, .cls p, _, s =>
    match s with
    | [] => []
    | c :: rest => if p c then [(some c, rest)] else []
  | n + 1, .seq a b, prev, s =>
    (runRE n a prev s).flatMap fun x => runRE n b x.1 x.2
  | n + 1, .alt a b, prev, s => runRE n a prev s ++ runRE n b prev s
  | n + 1, .star a, prev, s =>
    ((runRE n a prev s).filter fun x => decide (x.2.length < s.length)).flatMap
      (fun x => runRE n (.star a) x.1 x.2) ++ [(prev, s)]
  | _ + 1, .boundary, prev, s => if boundaryAt prev s then [(prev, s)] else []

/-- Fuel that strictly dominates the matcher recursion depth. -/
def reFuel (r : RE) (s : List Char) : Nat :=
  (s.length + 2) * (sizeRE r + 2)

/-- The alternative a JavaScript engine returns for `r` anchored at the
start of `s` (with `prev` the character before `s`), if any. -/
def matchHere (r : RE) (prev : Option Char) (s : List Char) :
    Option (Option Char × List Char) :=
  (runRE (reFuel r s) r prev s).head?

/--
Leftmost match of `r` in `s`: JavaScript scans start positions left to
right and commits to the first position where the pattern matches.
Returns (matched characters, character preceding the remainder,
remainder after the match).
-/
def findFirstIn (r : RE) : Option Char → List Char →
    Option (List Char × Option Char × List Char)
  | prev, s =>
    match matchHere r prev s with
    | some (p', rest) => some (s.take (s.length - rest.length), p', rest)
    | none =>
      match s with
      | [] => none
      | c :: cs => findFirstIn r (some c) cs

/--
Global matching (`String.prototype.match` with the `g` flag): repeated
leftmost search, resuming after each match; an empty match advances the
scan position by one character (the ECMAScript `lastIndex` rule).  The
patterns of the source never match the empty string, but the rule is
kept for faithfulness.
-/
def matchAllAux (r : RE) : Nat → Option Char → List Char → List (List Char)
  | 0, _, _ => []
  | fuel + 1, prev, s =>
    match findFirstIn r prev s with
    | none => []
    | some (m, p', rest) =>
      match m with
      | [] =>
        match rest with
        | [] => [[]]
        | c :: cs => [] :: matchAllAux r fuel (some c) cs
      | _ => m :: matchAllAux r fuel p' rest

/-- JavaScript `text.match(pattern) || []` with the `g` flag. -/
def jsMatchAll (r : RE) (s : String) : List String :=
  (matchAllAux r (s.data.length + 1) none s.data).map String.mk

/-- JavaScript `text.match(pattern)` without `g`: the first match (the
source only uses the whole-match/group-1 string, which coincide for the
name pattern since its groups span the whole match). -/
def jsMatchFirst (r : RE) (s : String) : Option String :=
  (findFirstIn r none s.data).map fun x => String.mk x.1

/-! ### Pattern constructors and the five patterns of the source -/

/-- Single literal character. -/
def chr (c : Char) : RE := .cls (· = c)

/-- Greedy `?`: prefer presence. -/
def opt (r : RE) : RE := .alt r .eps

/-- Greedy `+` = `r` then `r*`. -/
def plus (r : RE) : RE := .seq r (.star r)

/-- Exactly `n` copies of `r`. -/
def repN (r : RE) : Nat → RE
  | 0 => .eps
  | n + 1 => .seq r (repN r n)

/-- Greedily up to `n` copies of `r` (prefer more). -/
def upTo (r : RE) : Nat → RE
  | 0 => .eps
  | n + 1 => .alt (.seq r (upTo r n)) .eps

/-- Greedy bounded repetition `r{lo,hi}`. -/
def repRange (r : RE) (lo hi : Nat) : RE :=
  .seq (repN r lo) (upTo r (hi - lo))

/-- `/[a-zA-Z0-9._%+-]+@[a-zA-Z0-9.-]+\.[a-zA-Z]{2,7}/g` (line 70). -/
def emailPattern : RE :=
  .seq (plus (.cls emailLocalChar))
    (.seq (chr '@')
      (.seq (plus (.cls domainChar))
        (.seq (chr '.') (repRange (.cls Char.isAlpha) 2 7))))

/-- `/\+?[1-9]\d{1,2}[-.\s]?\(?\d{3}\)?[-.\s]?\d{3}[-.\s]?\d{4}/g` (line 79). -/
def phonePattern : RE :=
  .seq (opt (chr '+'))
    (.seq (.cls digitNZ)
      (.seq (repRange (.cls Char.isDigit) 1 2)
        (.seq (opt (.cls isPhoneSep))
          (.seq (opt (chr '('))
            (.seq (repN (.cls Char.isDigit) 3)
              (.seq (opt (chr ')'))
                (.seq (opt (.cls isPhoneSep))
                  (.seq (repN (.cls Char.isDigit) 3)
                    (.seq (opt (.cls isPhoneSep))
                      (repN (.cls Char.isDigit) 4))))))))))

/-- `/\d{1,5}\s\w+(\s\w+)*,\s\w+(\s\w+)*,\s[A-Z]{2}\s\d{5}/g` (line 85). -/
def addressPattern : RE :=
  .seq (repRange (.cls Char.isDigit) 1 5)
    (.seq (.cls isSpaceJS)
      (.seq (plus (.cls wordChar))
        (.seq (.star (.seq (.cls isSpaceJS) (plus (.cls wordChar))))
          (.seq (chr ',')
            (.seq (.cls isSpaceJS)
              (.seq (plus (.cls wordChar))
                (.seq (.star (.seq (.cls isSpaceJS) (plus (.cls wordChar))))
                  (.seq (chr ',')
                    (.seq (.cls isSpaceJS)
                      (.seq (repN (.cls Char.isUpper) 2)
                        (.seq (.cls isSpaceJS)
                          (repN (.cls Char.isDigit) 5))))))))))))

/-- `/\$?\d{1,3}(?:,\d{3})*(?:\.\d{2})?/g` (line 90). -/
def donationPattern : RE :=
  .seq (opt (chr '$'))
    (.seq (repRange (.cls Char.isDigit) 1 3)
      (.seq (.star (.seq (chr ',') (repN (.cls Char.isDigit) 3)))
        (opt (.seq (chr '.') (repN (.cls Char.isDigit) 2)))))

/-- `/\b([A-Z][a-z]+ [A-Z][a-z]+)\b/` (line 132). -/
def namePattern : RE :=
  .seq .boundary
    (.seq (.cls Char.isUpper)
      (.seq (plus (.cls Char.isLower))
        (.seq (chr ' ')
          (.seq (.cls Char.isUpper)
            (.seq (plus (.cls Char.isLower)) .boundary)))))

/-! ### Phone normalization and deduplication (lines 81-82 etc.) -/

/--
`phone.replace(/[-.\s]+/g, ' ')`: the greedy global replace rewrites
every maximal run of `[-.\s]` characters to a single space.  The `Bool`
flag records whether we are inside such a run (the run's first
character has already emitted the space).
-/
def collapseAux : Bool → List Char → List Char
  | _, [] => []
  | inRun, c :: cs =>
    if isPhoneSep c then
      (if inRun then [] else [' ']) ++ collapseAux true cs
    else
      c :: collapseAux false cs

/-- Maximal-run collapse, starting outside a run. -/
def collapseSeps (l : List Char) : List Char := collapseAux false l

/-- Left trim: drop leading whitespace. -/
def trimLeftL (l : List Char) : List Char := l.dropWhile isSpaceJS

/-- JavaScript `String.prototype.trim` (ASCII portion). -/
def jsTrimL (l : List Char) : List Char :=
  ((trimLeftL l).reverse.dropWhile isSpaceJS).reverse

/-- `phone.replace(/[-.\s]+/g, ' ').trim()` (lines 81 and 147). -/
def normalizePhone (s : String) : String :=
  String.mk (jsTrimL (collapseSeps s.data))

/-- `[...new Set(xs)]`: JavaScript `Set` iterates in insertion order, so
spreading it keeps the first occurrence of each element. -/
def dedupFirstAux {α : Type} [DecidableEq α] (seen : List α) : List α → List α
  | [] => []
  | x :: xs =>
    if x ∈ seen then dedupFirstAux seen xs
    else x :: dedupFirstAux (x :: seen) xs

/-- First-occurrence-order deduplication, `[...new Set(xs)]`. -/
def dedupFirst {α : Type} [DecidableEq α] (l : List α) : List α :=
  dedupFirstAux [] l

/-! ### Page-level entity extraction (lines 69-92) -/

/-- `pageText.match(emailPattern) || []` then `emails.push(...emailLinks)`:
the text matches followed by the mailto anchor hrefs (a collaborator
input). -/
def rawEmails (pageText : String) (emailLinks : List String) : List String :=
  jsMatchAll emailPattern pageText ++ emailLinks

/-- `uniqueEmails` (line 76). -/
def uniqueEmails (pageText : String) (emailLinks : List String) : List String :=
  dedupFirst (rawEmails pageText emailLinks)

/-- `cleanedPhones` (line 81). -/
def cleanedPhones (pageText : String) : List String :=
  (jsMatchAll phonePattern pageText).map normalizePhone

/-- `uniquePhones` (line 82). -/
def uniquePhones (pageText : String) : List String :=
  dedupFirst (cleanedPhones pageText)

/-- `uniqueAddresses` (line 87). -/
def uniqueAddresses (pageText : String) : List String :=
  dedupFirst (jsMatchAll addressPattern pageText)

/-- `uniqueDonations` (line 92). -/
def uniqueDonations (pageText : String) : List String :=
  dedupFirst (jsMatchAll donationPattern pageText)

/-! ### PDF ingestion (lines 100-127) -/

/-- The `extracted` field of a PDFRecord: entity lists of one PDF text. -/
structure Extracted where
  emails : List String
  phones : List String
  addresses : List String
  donations : List String
deriving DecidableEq, Repr

/-- One entry of `pdfData` (lines 112-121). -/
structure PDFRecord where
  url : String
  text : String
  extracted : Extracted
deriving DecidableEq, Repr

/-- Lines 116-119: the PDF `extracted` lists are the raw global matches
on the PDF text (`pdfText.match(pattern) || []`), with no phone
normalization and no dedup step. -/
def pdfExtract (t : String) : Extracted :=
  { emails := jsMatchAll emailPattern t
    phones := jsMatchAll phonePattern t
    addresses := jsMatchAll addressPattern t
    donations := jsMatchAll donationPattern t }

/--
The PDF loop (lines 106-127).  The collaborator boundary
(download + pdf-parse + per-item try/catch) is modelled by
`fetch : String → Option String`: `none` is a failed download or a
thrown error, `some t` is extracted text, where `t = ""` is pdf-parse
failure (`extractPDFText` returns `''` on error) — the JS
`if (pdfText)` truthiness check skips empty text.
-/
def pdfLoop (fetch : String → Option String) : List String → List PDFRecord
  | [] => []
  | u :: rest =>
    match fetch u with
    | some t =>
      if t = "" then pdfLoop fetch rest
      else ⟨u, t, pdfExtract t⟩ :: pdfLoop fetch rest
    | none => pdfLoop fetch rest

/-! ### Donor profile builder (lines 129-170) -/

/-- A donor/contact profile (lines 163-167). -/
structure DonorProfile where
  name : String
  emails : List String
  phones : List String
deriving DecidableEq, Repr

/-- `pageText.split(/\r?\n/)`: split on `\n` or `\r\n` (a lone `\r` is
not a separator). -/
def splitRN : List Char → List (List Char)
  | [] => [[]]
  | '\r' :: '\n' :: rest => [] :: splitRN rest
  | '\n' :: rest => [] :: splitRN rest
  | c :: rest =>
    match splitRN rest with
    | [] => [[c]]
    | l :: ls => (c :: l) :: ls

/-- Line 131: split, trim each line, drop the empty ones
(`.filter(Boolean)`). -/
def linesOf (t : String) : List String :=
  ((splitRN t.data).map fun l => String.mk (jsTrimL l)).filter fun s => s ≠ ""

/-- Indices of the proximity window for a name found at line `i`:
`max(0, i-2) .. min(N-1, i+2)` in increasing order (lines 144). -/
def windowIdxs (n i : Nat) : List Nat :=
  (List.range n).filter fun j => decide (i - 2 ≤ j) && decide (j ≤ i + 2)

/-- The inner `for (const e of matches) if (!used.has(e)) { found.push(e); used.add(e); }`
loops (lines 148-159): accumulate the not-yet-used items, marking each
as used.  The used set is modelled as a list with membership. -/
def addFresh : List String → List String → List String → List String × List String
  | [], found, used => (found, used)
  | x :: xs, found, used =>
    if x ∈ used then addFresh xs found used
    else addFresh xs (found ++ [x]) (x :: used)

/-- State of the window scan: the profile's accumulating lists plus the
run-scoped used sets. -/
structure ScanState where
  emailsFound : List String
  phonesFound : List String
  usedE : List String
  usedP : List String
deriving DecidableEq, Repr

/-- The window scan (lines 144-160): for each window line, all email
matches then all (normalized) phone matches are filtered against the
used sets. -/
def scanLines (lines : List String) : List Nat → ScanState → ScanState
  | [], st => st
  | j :: js, st =>
    let l := lines.getD j ""
    let e := addFresh (jsMatchAll emailPattern l) st.emailsFound st.usedE
    let p := addFresh ((jsMatchAll phonePattern l).map normalizePhone)
      st.phonesFound st.usedP
    scanLines lines js ⟨e.1, p.1, e.2, p.2⟩

/-- State of the outer donor loop: emitted profiles plus used sets. -/
structure BuildState where
  profiles : List DonorProfile
  usedE : List String
  usedP : List String
deriving DecidableEq, Repr

/-- One iteration of the outer loop (lines 136-169): if the line has a
name match, scan the window, then emit the profile iff
`(emailsFound.length > 0 || phonesFound.length > 0) && name.length > 4`.
The used sets keep the scan results in either case. -/
def buildStep (lines : List String) (st : BuildState) (i : Nat) : BuildState :=
  match jsMatchFirst namePattern (lines.getD i "") with
  | none => st
  | some name =>
    let sc := scanLines lines (windowIdxs lines.length i)
      ⟨[], [], st.usedE, st.usedP⟩
    if (sc.emailsFound ≠ [] ∨ sc.phonesFound ≠ []) ∧ 4 < name.length then
      ⟨st.profiles ++ [⟨name, sc.emailsFound, sc.phonesFound⟩], sc.usedE, sc.usedP⟩
    else
      ⟨st.profiles, sc.usedE, sc.usedP⟩

/-- The outer loop over line indices. -/
def donorLoop (lines : List String) : List Nat → BuildState → BuildState
  | [], st => st
  | i :: is, st => donorLoop lines is (buildStep lines st i)

/-- `donorProfiles` for a page text (lines 129-170), with freshly created
used sets. -/
def donorProfiles (text : String) : List DonorProfile :=
  (donorLoop (linesOf text) (List.range (linesOf text).length) ⟨[], [], []⟩).profiles

/-! ### Result assembly (lines 172-187) -/

/-- The output record (lines 173-182), with the field names of the
serialized JSON contract. -/
structure ResultRecord where
  Emails : List String
  Phones : List String
  Addresses : List String
  Donations : List String
  PDFLinks : List String
  PDFData : List PDFRecord
  RawText : String
  Donors : List DonorProfile
deriving DecidableEq, Repr

/--
The whole run (the body of the try block, lines 59-187).  Collaborator
inputs: the page text, the mailto hrefs, the pdf hrefs, and the PDF
fetch boundary.  An empty page text throws
`'Page content is empty'` (lines 65-67), caught at line 188 — nothing is
written; this is modelled by `Except.error`.
-/
def runExtraction (pageText : String) (emailLinks pdfLinks : List String)
    (fetch : String → Option String) : Except String ResultRecord :=
  if pageText = "" then .error "Page content is empty"
  else
    .ok
      { Emails := uniqueEmails pageText emailLinks
        Phones := uniquePhones pageText
        Addresses := uniqueAddresses pageText
        Donations := uniqueDonations pageText
        PDFLinks := dedupFirst pdfLinks
        PDFData := pdfLoop fetch (dedupFirst pdfLinks)
        RawText := pageText
        Donors := donorProfiles pageText }

/-! ### Concrete inputs used by individual claims -/

/-- The four-line page text of the end-to-end example (spec §8.6). -/
def c1Text : String :=
  "John Smith\njohn.smith@example.com\n(555) 123-4567\nDonation: $1,250.00"

/-- What the code actually produces on `c1Text` (no mailto anchors, no
PDF links). -/
def c1Record : ResultRecord :=
  { Emails := ["john.smith@example.com"]
    Phones := []
    Addresses := []
    Donations := ["555", "123", "456", "7", "$1,250.00"]
    PDFLinks := []
    PDFData := []
    RawText := c1Text
    Donors := [⟨"John Smith", ["john.smith@example.com"], []⟩] }

/-- Two profiles share no email and no phone (the exclusivity invariant
of the run-scoped used sets). -/
abbrev DonorDisjoint (p q : DonorProfile) : Prop :=
  (∀ e ∈ p.emails, e ∉ q.emails) ∧ (∀ ph ∈ p.phones, ph ∉ q.phones)

/-- Loop invariant of the donor builder: every emitted contact is
recorded in the used sets, and emitted profiles are pairwise disjoint. -/
abbrev BuildInv (st : BuildState) : Prop :=
  (∀ p ∈ st.profiles,
    (∀ e ∈ p.emails, e ∈ st.usedE) ∧ (∀ ph ∈ p.phones, ph ∈ st.usedP)) ∧
  st.profiles.Pairwise DonorDisjoint

/-! ## Helper lemmas: deduplication -/

theorem dedupFirstAux_eq_self {α : Type} [DecidableEq α] (seen l : List α)
    (h : ∀ x ∈ l, x ∉ seen) (hl : l.Nodup) : dedupFirstAux seen l = l := by
  induction l generalizing seen with
  | nil => rfl
  | cons x xs ih =>
    have hx : x ∉ seen := h x (List.mem_cons_self x xs)
    rw [dedupFirstAux, if_neg hx]
    congr 1
    apply ih
    · intro y hy
      rcases List.nodup_cons.mp hl with ⟨hxxs, _⟩
      intro hmem
      rcases List.mem_cons.mp hmem with rfl | hys
      · exact hxxs hy
      · exact h y (List.mem_cons_of_mem x hy) hys
    · exact (List.nodup_cons.mp hl).2

/-- `[...new Set(xs)]` is the identity on duplicate-free lists. -/
theorem dedupFirst_eq_self {α : Type} [DecidableEq α] (l : List α)
    (hl : l.Nodup) : dedupFirst l = l :=
  dedupFirstAux_eq_self [] l (fun _ _ => List.not_mem_nil _) hl

/-! ## Claim C1 -/

/-- Claim C1 (counterexample): on the four-line example page text the
run does NOT produce `Phones = ["555 123 4567"]` — the phone pattern
demands a 2–3 digit country prefix before the 3-3-4 groups, and
`(555) 123-4567` has only ten digits, so it is not matched at all. -/
theorem c1_counterexample :
    ¬ ∃ d : ResultRecord,
        runExtraction c1Text [] [] (fun _ => none) = Except.ok d ∧
        d.Phones = ["555 123 4567"] := by
  rintro ⟨d, hd, hp⟩
  have hrun : runExtraction c1Text [] [] (fun _ => none) = Except.ok c1Record := by rfl
  rw [hrun] at hd
  injection hd with h
  subst h
  exact absurd hp (by decide)

/-- Claim C1 (amended): on the four-line example the run produces
`Emails = ["john.smith@example.com"]`, `Phones = []` (the phone pattern
requires a leading country-code group, so the US-style number is
unmatched), `Donations` containing `"$1,250.00"`, and a single donor
profile `{name := "John Smith", emails := [the email], phones := []}`. -/
theorem c1_amended_run :
    runExtraction c1Text [] [] (fun _ => none) = Except.ok c1Record ∧
    c1Record.Emails = ["john.smith@example.com"] ∧
    c1Record.Phones = [] ∧
    "$1,250.00" ∈ c1Record.Donations ∧
    c1Record.Donors = [⟨"John Smith", ["john.smith@example.com"], []⟩] :=
  ⟨rfl, rfl, rfl, by decide, rfl⟩

/-! ## Claim C2 -/

/-- Claim C2 (counterexample): the `extracted` field stored for a
fetched PDF is NOT the page-level extractor output: a duplicated email
stays duplicated, and a dashed phone match is stored unnormalized. -/
theorem c2_counterexample :
    (pdfLoop (fun _ => some "a@b.com a@b.com") ["doc.pdf"]).map
        (fun r => r.extracted.emails) = [["a@b.com", "a@b.com"]] ∧
    uniqueEmails "a@b.com a@b.com" [] = ["a@b.com"] ∧
    (pdfLoop (fun _ => some "a@b.com a@b.com") ["doc.pdf"]).map
        (fun r => r.extracted.emails) ≠ [uniqueEmails "a@b.com a@b.com" []] ∧
    (pdfExtract "12 555-123-4567").phones = ["12 555-123-4567"] ∧
    uniquePhones "12 555-123-4567" = ["12 555 123 4567"] ∧
    (pdfExtract "12 555-123-4567").phones ≠ uniquePhones "12 555-123-4567" :=
  ⟨rfl, rfl, by decide, rfl, rfl, by decide⟩

/-- Claim C2 (amended): the PDF `extracted` lists are the raw global
matches of the shared patterns on the PDF text, with no normalization
and no dedup; they agree with the page-level extractor exactly when the
raw matches are already normalized and duplicate-free. -/
theorem c2_pdf_raw_matches (t : String)
    (he : (jsMatchAll emailPattern t).Nodup)
    (hpn : ∀ p ∈ jsMatchAll phonePattern t, normalizePhone p = p)
    (hp : (jsMatchAll phonePattern t).Nodup)
    (ha : (jsMatchAll addressPattern t).Nodup)
    (hd : (jsMatchAll donationPattern t).Nodup) :
    (pdfExtract t).emails = uniqueEmails t [] ∧
    (pdfExtract t).phones = uniquePhones t ∧
    (pdfExtract t).addresses = uniqueAddresses t ∧
    (pdfExtract t).donations = uniqueDonations t := by
  have hclean : cleanedPhones t = jsMatchAll phonePattern t := by
    unfold cleanedPhones
    rw [List.map_congr_left hpn]
    simp
  refine ⟨?_, ?_, ?_, ?_⟩
  · unfold uniqueEmails rawEmails pdfExtract
    rw [List.append_nil, dedupFirst_eq_self _ he]
  · unfold uniquePhones pdfExtract
    rw [hclean, dedupFirst_eq_self _ hp]
  · unfold uniqueAddresses pdfExtract
    rw [dedupFirst_eq_self _ ha]
  · unfold uniqueDonations pdfExtract
    rw [dedupFirst_eq_self _ hd]

theorem c2_pdf_raw_matches_witness :
    (pdfExtract "a@b.com").emails = uniqueEmails "a@b.com" [] ∧
    (pdfExtract "a@b.com").phones = uniquePhones "a@b.com" ∧
    (pdfExtract "a@b.com").addresses = uniqueAddresses "a@b.com" ∧
    (pdfExtract "a@b.com").donations = uniqueDonations "a@b.com" :=
  c2_pdf_raw_matches "a@b.com" (by decide) (by decide) (by decide)
    (by decide) (by decide)

/-! ## Claim C4 -/

theorem dedupFirstAux_sublist {α : Type} [DecidableEq α] (seen l : List α) :
    (dedupFirstAux seen l).Sublist l := by
  induction l generalizing seen with
  | nil => exact List.Sublist.refl _
  | cons x xs ih =>
    rw [dedupFirstAux]
    by_cases h : x ∈ seen
    · rw [if_pos h]
      exact (ih seen).cons x
    · rw [if_neg h]
      exact (ih (x :: seen)).cons₂ x

theorem dedupFirstAux_count_of_mem_seen {α : Type} [DecidableEq α]
    (seen l : List α) (e : α) (hs : e ∈ seen) :
    (dedupFirstAux seen l).count e = 0 := by
  induction l generalizing seen with
  | nil => rfl
  | cons x xs ih =>
    rw [dedupFirstAux]
    by_cases h : x ∈ seen
    · rw [if_pos h]
      exact ih seen hs
    · rw [if_neg h, List.count_cons]
      have hxe : ¬(x == e) = true := by
        simp only [beq_iff_eq]
        rintro rfl
        exact h hs
      simp [hxe, ih (x :: seen) (List.mem_cons_of_mem x hs)]

theorem dedupFirstAux_count_of_mem {α : Type} [DecidableEq α]
    (seen l : List α) (e : α) (hs : e ∉ seen) (he : e ∈ l) :
    (dedupFirstAux seen l).count e = 1 := by
  induction l generalizing seen with
  | nil => cases he
  | cons x xs ih =>
    rw [dedupFirstAux]
    by_cases h : x ∈ seen
    · rw [if_pos h]
      rcases List.mem_cons.mp he with rfl | he'
      · exact absurd h hs
      · exact ih seen hs he'
    · rw [if_neg h, List.count_cons]
      by_cases hxe : x = e
      · subst hxe
        simp [dedupFirstAux_count_of_mem_seen (x :: seen) xs x
          (List.mem_cons_self x seen)]
      · have hb : ¬(x == e) = true := by simp [hxe]
        rcases List.mem_cons.mp he with rfl | he'
        · exact absurd rfl hxe
        · have hs' : e ∉ x :: seen := by
            intro hmem
            rcases List.mem_cons.mp hmem with rfl | hmem'
            · exact hxe rfl
            · exact hs hmem'
          simp [hb, ih (x :: seen) hs' he']

theorem dedupFirstAux_takeWhile {α : Type} [DecidableEq α]
    (seen l : List α) (e : α) (hs : e ∉ seen) :
    (dedupFirstAux seen l).takeWhile (fun x => decide (x ≠ e)) =
      dedupFirstAux seen (l.takeWhile (fun x => decide (x ≠ e))) := by
  induction l generalizing seen with
  | nil => rfl
  | cons x xs ih =>
    by_cases hxe : x = e
    · subst hxe
      have hxs : x ∉ seen := hs
      rw [dedupFirstAux, if_neg hxs, List.takeWhile_cons, List.takeWhile_cons]
      simp [dedupFirstAux]
    · by_cases h : x ∈ seen
      · rw [dedupFirstAux, if_pos h]
        have h2 : (x :: xs).takeWhile (fun y => decide (y ≠ e)) =
            x :: xs.takeWhile (fun y => decide (y ≠ e)) := by
          simp [List.takeWhile_cons, hxe]
        rw [h2, dedupFirstAux, if_pos h]
        exact ih seen hs
      · have hs' : e ∉ x :: seen := by
          intro hmem
          rcases List.mem_cons.mp hmem with rfl | hmem'
          · exact hxe rfl
          · exact hs hmem'
        rw [dedupFirstAux, if_neg h]
        have h1 : (x :: dedupFirstAux (x :: seen) xs).takeWhile
              (fun y => decide (y ≠ e)) =
            x :: (dedupFirstAux (x :: seen) xs).takeWhile
              (fun y => decide (y ≠ e)) := by
          simp [List.takeWhile_cons, hxe]
        have h2 : (x :: xs).takeWhile (fun y => decide (y ≠ e)) =
            x :: xs.takeWhile (fun y => decide (y ≠ e)) := by
          simp [List.takeWhile_cons, hxe]
        rw [h1, h2, dedupFirstAux, if_neg h]
        congr 1
        exact ih (x :: seen) hs'

/-- Claim C4: page-level dedup — if an email occurs at least twice among
the raw matches (or a normalized phone occurs at least twice among the
cleaned matches), the corresponding unique list contains it exactly
once; the unique list is a sublist of the raw list (match order), and
the part of the unique list before the element is exactly the dedup of
the raw prefix before the element's first occurrence, i.e. the retained
copy sits at its first-occurrence position. -/
theorem c4_page_dedup (text : String) (links : List String) (e p : String) :
    (2 ≤ (rawEmails text links).count e →
      (uniqueEmails text links).count e = 1 ∧
      (uniqueEmails text links).takeWhile (fun x => decide (x ≠ e)) =
        dedupFirst ((rawEmails text links).takeWhile (fun x => decide (x ≠ e)))) ∧
    (uniqueEmails text links).Sublist (rawEmails text links) ∧
    (2 ≤ (cleanedPhones text).count p →
      (uniquePhones text).count p = 1 ∧
      (uniquePhones text).takeWhile (fun x => decide (x ≠ p)) =
        dedupFirst ((cleanedPhones text).takeWhile (fun x => decide (x ≠ p)))) ∧
    (uniquePhones text).Sublist (cleanedPhones text) := by
  refine ⟨fun h2 => ⟨?_, ?_⟩, dedupFirstAux_sublist _ _,
    fun h2 => ⟨?_, ?_⟩, dedupFirstAux_sublist _ _⟩
  · exact dedupFirstAux_count_of_mem [] _ e (List.not_mem_nil e)
      (List.count_pos_iff.mp (Nat.lt_of_lt_of_le Nat.zero_lt_two h2))
  · exact dedupFirstAux_takeWhile [] _ e (List.not_mem_nil e)
  · exact dedupFirstAux_count_of_mem [] _ p (List.not_mem_nil p)
      (List.count_pos_iff.mp (Nat.lt_of_lt_of_le Nat.zero_lt_two h2))
  · exact dedupFirstAux_takeWhile [] _ p (List.not_mem_nil p)

theorem c4_page_dedup_witness :
    2 ≤ (rawEmails "a@b.com a@b.com 12 555-123-4567 and 12 555.123.4567" []).count
        "a@b.com" ∧
    ((uniqueEmails "a@b.com a@b.com 12 555-123-4567 and 12 555.123.4567" []).count
        "a@b.com" = 1 ∧
      (uniqueEmails "a@b.com a@b.com 12 555-123-4567 and 12 555.123.4567" []).takeWhile
          (fun x => decide (x ≠ "a@b.com")) =
        dedupFirst ((rawEmails "a@b.com a@b.com 12 555-123-4567 and 12 555.123.4567"
          []).takeWhile (fun x => decide (x ≠ "a@b.com")))) ∧
    2 ≤ (cleanedPhones "a@b.com a@b.com 12 555-123-4567 and 12 555.123.4567").count
        "12 555 123 4567" ∧
    ((uniquePhones "a@b.com a@b.com 12 555-123-4567 and 12 555.123.4567").count
        "12 555 123 4567" = 1 ∧
      (uniquePhones "a@b.com a@b.com 12 555-123-4567 and 12 555.123.4567").takeWhile
          (fun x => decide (x ≠ "12 555 123 4567")) =
        dedupFirst ((cleanedPhones "a@b.com a@b.com 12 555-123-4567 and 12 555.123.4567").takeWhile
          (fun x => decide (x ≠ "12 555 123 4567")))) :=
  ⟨by decide,
    (c4_page_dedup "a@b.com a@b.com 12 555-123-4567 and 12 555.123.4567" []
      "a@b.com" "12 555 123 4567").1 (by decide),
    by decide,
    (c4_page_dedup "a@b.com a@b.com 12 555-123-4567 and 12 555.123.4567" []
      "a@b.com" "12 555 123 4567").2.2.1 (by decide)⟩

/-! ## Claim C10 -/

theorem collapseAux_filter (b : Bool) (l : List Char) :
    (collapseAux b l).filter (fun c => !isPhoneSep c) =
      l.filter (fun c => !isPhoneSep c) := by
  induction l generalizing b with
  | nil => rfl
  | cons c cs ih =>
    rw [collapseAux]
    by_cases h : isPhoneSep c
    · have hsp : isPhoneSep ' ' = true := by decide
      cases b <;> simp [h, hsp, List.filter_cons, ih]
    · simp [h, List.filter_cons, ih]

theorem dropWhile_space_filter (l : List Char) :
    (l.dropWhile isSpaceJS).filter (fun c => !isPhoneSep c) =
      l.filter (fun c => !isPhoneSep c) := by
  induction l with
  | nil => rfl
  | cons c cs ih =>
    by_cases h : isSpaceJS c
    · have hsep : isPhoneSep c = true := by
        unfold isPhoneSep
        simp [h]
      rw [List.dropWhile_cons]
      simp [h, hsep, List.filter_cons, ih]
    · rw [List.dropWhile_cons]
      simp [h]

theorem jsTrimL_filter (l : List Char) :
    (jsTrimL l).filter (fun c => !isPhoneSep c) =
      l.filter (fun c => !isPhoneSep c) := by
  unfold jsTrimL trimLeftL
  rw [List.filter_reverse, dropWhile_space_filter, List.filter_reverse,
    List.reverse_reverse, dropWhile_space_filter]

theorem normalizePhone_filter (s : String) :
    (normalizePhone s).data.filter (fun c => !isPhoneSep c) =
      s.data.filter (fun c => !isPhoneSep c) := by
  unfold normalizePhone collapseSeps
  rw [show (String.mk (jsTrimL (collapseAux false s.data))).data =
      jsTrimL (collapseAux false s.data) from rfl]
  rw [jsTrimL_filter, collapseAux_filter]

/-- Claim C10: phone normalization rewrites only dash/dot/whitespace
characters — the subsequence of non-separator characters (parentheses
included) is untouched; the parenthesised example keeps its parentheses,
and two renderings of the same digits differing only in parentheses stay
distinct entries of the deduplicated phone list. -/
theorem c10_parens_preserved :
    (∀ s : String, (normalizePhone s).data.filter (fun c => !isPhoneSep c) =
        s.data.filter (fun c => !isPhoneSep c)) ∧
    normalizePhone "12 (555) 123-4567" = "12 (555) 123 4567" ∧
    '(' ∈ (normalizePhone "12 (555) 123-4567").data ∧
    ')' ∈ (normalizePhone "12 (555) 123-4567").data ∧
    uniquePhones "12 (555) 123-4567 or 12 555.123.4567" =
      ["12 (555) 123 4567", "12 555 123 4567"] ∧
    ("12 (555) 123 4567" : String) ≠ "12 555 123 4567" :=
  ⟨normalizePhone_filter, rfl, by decide, by decide, rfl, by decide⟩

theorem c10_parens_preserved_witness :
    (normalizePhone "+1 (23)").data.filter (fun c => !isPhoneSep c) =
      ("+1 (23)" : String).data.filter (fun c => !isPhoneSep c) :=
  c10_parens_preserved.1 "+1 (23)"

/-! ## Claim C5 -/

/-- Claim C5: empty page text makes the run abort with the failure
`'Page content is empty'`; no result record (not even a partial one) is
produced. -/
theorem c5_empty_page_aborts (pageText : String) (emailLinks pdfLinks : List String)
    (fetch : String → Option String) (h : pageText = "") :
    runExtraction pageText emailLinks pdfLinks fetch =
      Except.error "Page content is empty" ∧
    ∀ d : ResultRecord,
      runExtraction pageText emailLinks pdfLinks fetch ≠ Except.ok d := by
  subst h
  refine ⟨rfl, fun d hd => ?_⟩
  rw [show runExtraction "" emailLinks pdfLinks fetch =
      Except.error "Page content is empty" from rfl] at hd
  exact Except.noConfusion hd

theorem c5_empty_page_aborts_witness :
    runExtraction "" [] [] (fun _ => none) =
      Except.error "Page content is empty" ∧
    ∀ d : ResultRecord,
      runExtraction "" [] [] (fun _ => none) ≠ Except.ok d :=
  c5_empty_page_aborts "" [] [] (fun _ => none) rfl

/-! ## Claim C6 -/

/-- Claim C6: each PDF link is processed in isolation — a failing link
contributes no entry and does not stop the loop (the loop equals a
per-link `filterMap`), and with three distinct links of which exactly
one fails the run completes with a `ResultRecord` whose `PDFData` has
exactly two entries, neither of them for the failing link. -/
theorem c6_pdf_isolation :
    (∀ (fetch : String → Option String) (links : List String),
      pdfLoop fetch links = links.filterMap fun u =>
        (fetch u).bind fun t =>
          if t = "" then none else some ⟨u, t, pdfExtract t⟩) ∧
    (∀ (pageText l1 l2 l3 t1 t3 : String) (emailLinks : List String)
      (fetch : String → Option String),
      pageText ≠ "" → fetch l1 = some t1 → t1 ≠ "" → fetch l2 = none →
      fetch l3 = some t3 → t3 ≠ "" → l1 ≠ l2 → l1 ≠ l3 → l2 ≠ l3 →
      ∃ d : ResultRecord,
        runExtraction pageText emailLinks [l1, l2, l3] fetch = Except.ok d ∧
        d.PDFData.length = 2 ∧ (∀ r ∈ d.PDFData, r.url ≠ l2) ∧
        d.RawText = pageText ∧ d.Donors = donorProfiles pageText) := by
  constructor
  · intro fetch links
    induction links with
    | nil => rfl
    | cons u rest ih =>
      cases h : fetch u with
      | none => simp [pdfLoop, h, ih]
      | some t =>
        by_cases ht : t = ""
        · simp [pdfLoop, h, ht, ih]
        · simp [pdfLoop, h, ht, ih]
  · intro pageText l1 l2 l3 t1 t3 emailLinks fetch hne hf1 ht1 hf2 hf3 ht3 h12 h13 h23
    have hnodup : ([l1, l2, l3] : List String).Nodup := by
      simp [List.nodup_cons, h12, h13, h23]
    have hdedup : dedupFirst [l1, l2, l3] = [l1, l2, l3] :=
      dedupFirst_eq_self _ hnodup
    have hloop : pdfLoop fetch [l1, l2, l3] =
        [⟨l1, t1, pdfExtract t1⟩, ⟨l3, t3, pdfExtract t3⟩] := by
      simp [pdfLoop, hf1, hf2, hf3, ht1, ht3]
    rw [runExtraction, if_neg hne]
    refine ⟨_, rfl, ?_, ?_, rfl, rfl⟩
    · show (pdfLoop fetch (dedupFirst [l1, l2, l3])).length = 2
      rw [hdedup, hloop]
      rfl
    · show ∀ r ∈ pdfLoop fetch (dedupFirst [l1, l2, l3]), r.url ≠ l2
      rw [hdedup, hloop]
      intro r hr
      rcases List.mem_cons.mp hr with rfl | hr
      · exact h12
      · rcases List.mem_cons.mp hr with rfl | hr
        · exact fun h => h23 h.symm
        · exact absurd hr (List.not_mem_nil r)

theorem c6_pdf_isolation_witness :
    ∃ d : ResultRecord,
      runExtraction "x" [] ["a.pdf", "b.pdf", "c.pdf"]
        (fun u => if u = "a.pdf" then some "t" else
          if u = "c.pdf" then some "u" else none) = Except.ok d ∧
      d.PDFData.length = 2 ∧ (∀ r ∈ d.PDFData, r.url ≠ "b.pdf") ∧
      d.RawText = "x" ∧ d.Donors = donorProfiles "x" :=
  c6_pdf_isolation.2 "x" "a.pdf" "b.pdf" "c.pdf" "t" "u" []
    (fun u => if u = "a.pdf" then some "t" else
      if u = "c.pdf" then some "u" else none)
    (by decide) (by decide) (by decide) (by decide) (by decide) (by decide)
    (by decide) (by decide) (by decide)

/-! ## Helper lemmas: the donor builder's used sets -/

theorem addFresh_used_mono (items found used : List String) (x : String)
    (hx : x ∈ used) : x ∈ (addFresh items found used).2 := by
  induction items generalizing found used with
  | nil => exact hx
  | cons y ys ih =>
    rw [addFresh]
    by_cases hy : y ∈ used
    · rw [if_pos hy]
      exact ih found used hx
    · rw [if_neg hy]
      exact ih (found ++ [y]) (y :: used) (List.mem_cons_of_mem y hx)

theorem addFresh_items_used (items found used : List String) (x : String)
    (hx : x ∈ items) : x ∈ (addFresh items found used).2 := by
  induction items generalizing found used with
  | nil => cases hx
  | cons y ys ih =>
    rw [addFresh]
    by_cases hy : y ∈ used
    · rw [if_pos hy]
      rcases List.mem_cons.mp hx with rfl | hx'
      · exact addFresh_used_mono ys found used x hy
      · exact ih found used hx'
    · rw [if_neg hy]
      rcases List.mem_cons.mp hx with rfl | hx'
      · exact addFresh_used_mono ys (found ++ [x]) (x :: used) x
          (List.mem_cons_self x used)
      · exact ih (found ++ [y]) (y :: used) hx'

theorem addFresh_found_sub_used (items found used : List String)
    (h : ∀ x ∈ found, x ∈ used) :
    ∀ x ∈ (addFresh items found used).1, x ∈ (addFresh items found used).2 := by
  induction items generalizing found used with
  | nil => exact h
  | cons y ys ih =>
    rw [addFresh]
    by_cases hy : y ∈ used
    · rw [if_pos hy]
      exact ih found used h
    · rw [if_neg hy]
      apply ih (found ++ [y]) (y :: used)
      intro x hx
      rcases List.mem_append.mp hx with hx' | hx'
      · exact List.mem_cons_of_mem y (h x hx')
      · rcases List.mem_singleton.mp hx' with rfl
        exact List.mem_cons_self x used

theorem addFresh_found_new (items found used : List String) (x : String)
    (hx : x ∈ (addFresh items found used).1) : x ∈ found ∨ x ∉ used := by
  induction items generalizing found used with
  | nil => exact Or.inl hx
  | cons y ys ih =>
    rw [addFresh] at hx
    by_cases hy : y ∈ used
    · rw [if_pos hy] at hx
      exact ih found used hx
    · rw [if_neg hy] at hx
      rcases ih (found ++ [y]) (y :: used) hx with h' | h'
      · rcases List.mem_append.mp h' with h'' | h''
        · exact Or.inl h''
        · rcases List.mem_singleton.mp h'' with rfl
          exact Or.inr hy
      · exact Or.inr fun hc => h' (List.mem_cons_of_mem y hc)

theorem scanLines_usedE_mono (lines : List String) (js : List Nat)
    (st : ScanState) (x : String) (hx : x ∈ st.usedE) :
    x ∈ (scanLines lines js st).usedE := by
  induction js generalizing st with
  | nil => exact hx
  | cons j js' ih =>
    rw [scanLines]
    exact ih _ (addFresh_used_mono _ _ _ x hx)

theorem scanLines_usedP_mono (lines : List String) (js : List Nat)
    (st : ScanState) (x : String) (hx : x ∈ st.usedP) :
    x ∈ (scanLines lines js st).usedP := by
  induction js generalizing st with
  | nil => exact hx
  | cons j js' ih =>
    rw [scanLines]
    exact ih _ (addFresh_used_mono _ _ _ x hx)

theorem scanLines_emails_sub_used (lines : List String) (js : List Nat)
    (st : ScanState) (h : ∀ x ∈ st.emailsFound, x ∈ st.usedE) :
    ∀ x ∈ (scanLines lines js st).emailsFound,
      x ∈ (scanLines lines js st).usedE := by
  induction js generalizing st with
  | nil => exact h
  | cons j js' ih =>
    rw [scanLines]
    exact ih _ (addFresh_found_sub_used _ _ _ h)

theorem scanLines_phones_sub_used (lines : List String) (js : List Nat)
    (st : ScanState) (h : ∀ x ∈ st.phonesFound, x ∈ st.usedP) :
    ∀ x ∈ (scanLines lines js st).phonesFound,
      x ∈ (scanLines lines js st).usedP := by
  induction js generalizing st with
  | nil => exact h
  | cons j js' ih =>
    rw [scanLines]
    exact ih _ (addFresh_found_sub_used _ _ _ h)

theorem scanLines_emails_new (lines : List String) (js : List Nat)
    (st : ScanState) (x : String)
    (hx : x ∈ (scanLines lines js st).emailsFound) :
    x ∈ st.emailsFound ∨ x ∉ st.usedE := by
  induction js generalizing st with
  | nil => exact Or.inl hx
  | cons j js' ih =>
    rw [scanLines] at hx
    rcases ih _ hx with h' | h'
    · rcases addFresh_found_new _ _ _ x h' with h'' | h''
      · exact Or.inl h''
      · exact Or.inr h''
    · exact Or.inr fun hc => h' (addFresh_used_mono _ _ _ x hc)

theorem scanLines_phones_new (lines : List String) (js : List Nat)
    (st : ScanState) (x : String)
    (hx : x ∈ (scanLines lines js st).phonesFound) :
    x ∈ st.phonesFound ∨ x ∉ st.usedP := by
  induction js generalizing st with
  | nil => exact Or.inl hx
  | cons j js' ih =>
    rw [scanLines] at hx
    rcases ih _ hx with h' | h'
    · rcases addFresh_found_new _ _ _ x h' with h'' | h''
      · exact Or.inl h''
      · exact Or.inr h''
    · exact Or.inr fun hc => h' (addFresh_used_mono _ _ _ x hc)

theorem scanLines_line_emails_used (lines : List String) (js : List Nat)
    (st : ScanState) (j : Nat) (hj : j ∈ js) (e : String)
    (he : e ∈ jsMatchAll emailPattern (lines.getD j "")) :
    e ∈ (scanLines lines js st).usedE := by
  induction js generalizing st with
  | nil => cases hj
  | cons j' js' ih =>
    rw [scanLines]
    rcases List.mem_cons.mp hj with rfl | hj'
    · exact scanLines_usedE_mono _ _ _ e (addFresh_items_used _ _ _ e he)
    · exact ih _ hj'

theorem scanLines_line_phones_used (lines : List String) (js : List Nat)
    (st : ScanState) (j : Nat) (hj : j ∈ js) (p : String)
    (hp : p ∈ (jsMatchAll phonePattern (lines.getD j "")).map normalizePhone) :
    p ∈ (scanLines lines js st).usedP := by
  induction js generalizing st with
  | nil => cases hj
  | cons j' js' ih =>
    rw [scanLines]
    rcases List.mem_cons.mp hj with rfl | hj'
    · exact scanLines_usedP_mono _ _ _ p (addFresh_items_used _ _ _ p hp)
    · exact ih _ hj'

/-! ## Helper lemmas: the donor builder's outer loop -/

theorem buildStep_used_eq (lines : List String) (st : BuildState) (i : Nat)
    (name : String)
    (hname : jsMatchFirst namePattern (lines.getD i "") = some name) :
    (buildStep lines st i).usedE =
      (scanLines lines (windowIdxs lines.length i)
        ⟨[], [], st.usedE, st.usedP⟩).usedE ∧
    (buildStep lines st i).usedP =
      (scanLines lines (windowIdxs lines.length i)
        ⟨[], [], st.usedE, st.usedP⟩).usedP := by
  simp only [buildStep, hname]
  split <;> exact ⟨rfl, rfl⟩

theorem buildStep_usedE_mono (lines : List String) (st : BuildState) (i : Nat)
    (x : String) (hx : x ∈ st.usedE) : x ∈ (buildStep lines st i).usedE := by
  cases hname : jsMatchFirst namePattern (lines.getD i "") with
  | none =>
    simp only [buildStep, hname]
    exact hx
  | some name =>
    rw [(buildStep_used_eq lines st i name hname).1]
    exact scanLines_usedE_mono _ _ _ x hx

theorem buildStep_usedP_mono (lines : List String) (st : BuildState) (i : Nat)
    (x : String) (hx : x ∈ st.usedP) : x ∈ (buildStep lines st i).usedP := by
  cases hname : jsMatchFirst namePattern (lines.getD i "") with
  | none =>
    simp only [buildStep, hname]
    exact hx
  | some name =>
    rw [(buildStep_used_eq lines st i name hname).2]
    exact scanLines_usedP_mono _ _ _ x hx

theorem buildStep_profiles_cases (lines : List String) (st : BuildState)
    (i : Nat) (q : DonorProfile) (hq : q ∈ (buildStep lines st i).profiles) :
    q ∈ st.profiles ∨
    ∃ name, jsMatchFirst namePattern (lines.getD i "") = some name ∧
      q = ⟨name,
        (scanLines lines (windowIdxs lines.length i)
          ⟨[], [], st.usedE, st.usedP⟩).emailsFound,
        (scanLines lines (windowIdxs lines.length i)
          ⟨[], [], st.usedE, st.usedP⟩).phonesFound⟩ ∧
      ((scanLines lines (windowIdxs lines.length i)
          ⟨[], [], st.usedE, st.usedP⟩).emailsFound ≠ [] ∨
        (scanLines lines (windowIdxs lines.length i)
          ⟨[], [], st.usedE, st.usedP⟩).phonesFound ≠ []) ∧
      4 < name.length := by
  cases hname : jsMatchFirst namePattern (lines.getD i "") with
  | none =>
    left
    simp only [buildStep, hname] at hq
    exact hq
  | some name =>
    simp only [buildStep, hname] at hq
    split at hq
    case isTrue hcond =>
      rcases List.mem_append.mp hq with hq' | hq'
      · exact Or.inl hq'
      · rcases List.mem_singleton.mp hq' with rfl
        exact Or.inr ⟨name, rfl, rfl, hcond.1, hcond.2⟩
    case isFalse hcond =>
      exact Or.inl hq

theorem buildStep_preserves_inv (lines : List String) (st : BuildState)
    (i : Nat) (h : BuildInv st) : BuildInv (buildStep lines st i) := by
  obtain ⟨hsub, hpair⟩ := h
  cases hname : jsMatchFirst namePattern (lines.getD i "") with
  | none =>
    simp only [buildStep, hname]
    exact ⟨hsub, hpair⟩
  | some name =>
    simp only [buildStep, hname]
    split
    case isTrue hcond =>
      refine ⟨?_, ?_⟩
      · intro p hp
        rcases List.mem_append.mp hp with hp' | hp'
        · exact ⟨fun e he => scanLines_usedE_mono _ _ _ e ((hsub p hp').1 e he),
            fun ph hph => scanLines_usedP_mono _ _ _ ph ((hsub p hp').2 ph hph)⟩
        · rcases List.mem_singleton.mp hp' with rfl
          exact ⟨fun e he => scanLines_emails_sub_used _ _ _
              (fun x hx => absurd hx (List.not_mem_nil x)) e he,
            fun ph hph => scanLines_phones_sub_used _ _ _
              (fun x hx => absurd hx (List.not_mem_nil x)) ph hph⟩
      · rw [List.pairwise_append]
        refine ⟨hpair, List.pairwise_singleton _ _, ?_⟩
        intro p hp q hq
        rcases List.mem_singleton.mp hq with rfl
        constructor
        · intro e he hq'
          rcases scanLines_emails_new _ _ _ e hq' with h0 | h0
          · exact absurd h0 (List.not_mem_nil e)
          · exact h0 ((hsub p hp).1 e he)
        · intro ph hph hq'
          rcases scanLines_phones_new _ _ _ ph hq' with h0 | h0
          · exact absurd h0 (List.not_mem_nil ph)
          · exact h0 ((hsub p hp).2 ph hph)
    case isFalse hcond =>
      exact ⟨fun p hp =>
        ⟨fun e he => scanLines_usedE_mono _ _ _ e ((hsub p hp).1 e he),
          fun ph hph => scanLines_usedP_mono _ _ _ ph ((hsub p hp).2 ph hph)⟩,
        hpair⟩

theorem donorLoop_preserves_inv (lines : List String) (is : List Nat)
    (st : BuildState) (h : BuildInv st) : BuildInv (donorLoop lines is st) := by
  induction is generalizing st with
  | nil => exact h
  | cons i is' ih =>
    rw [donorLoop]
    exact ih _ (buildStep_preserves_inv _ _ _ h)

theorem donorLoop_profiles_cases (lines : List String) (is : List Nat)
    (st : BuildState) (q : DonorProfile)
    (hq : q ∈ (donorLoop lines is st).profiles) :
    q ∈ st.profiles ∨ (4 < q.name.length ∧ (q.emails ≠ [] ∨ q.phones ≠ [])) := by
  induction is generalizing st with
  | nil => exact Or.inl hq
  | cons i is' ih =>
    rw [donorLoop] at hq
    rcases ih _ hq with h | h
    · rcases buildStep_profiles_cases _ _ _ _ h with h' | ⟨name, _, hqe, hne, hlen⟩
      · exact Or.inl h'
      · subst hqe
        exact Or.inr ⟨hlen, hne⟩
    · exact Or.inr h

theorem donorLoop_used_email_stable (lines : List String) (is : List Nat)
    (st : BuildState) (e : String) (he : e ∈ st.usedE) :
    ∀ q ∈ (donorLoop lines is st).profiles, q ∈ st.profiles ∨ e ∉ q.emails := by
  induction is generalizing st with
  | nil => exact fun q hq => Or.inl hq
  | cons i is' ih =>
    intro q hq
    rw [donorLoop] at hq
    have he' : e ∈ (buildStep lines st i).usedE :=
      buildStep_usedE_mono _ _ _ _ he
    rcases ih _ he' q hq with h | h
    · rcases buildStep_profiles_cases _ _ _ _ h with h' | ⟨name, _, hqe, _, _⟩
      · exact Or.inl h'
      · right
        subst hqe
        intro hmem
        rcases scanLines_emails_new _ _ _ e hmem with h0 | h0
        · exact absurd h0 (List.not_mem_nil e)
        · exact h0 he
    · exact Or.inr h

theorem donorLoop_used_phone_stable (lines : List String) (is : List Nat)
    (st : BuildState) (p : String) (hp : p ∈ st.usedP) :
    ∀ q ∈ (donorLoop lines is st).profiles, q ∈ st.profiles ∨ p ∉ q.phones := by
  induction is generalizing st with
  | nil => exact fun q hq => Or.inl hq
  | cons i is' ih =>
    intro q hq
    rw [donorLoop] at hq
    have hp' : p ∈ (buildStep lines st i).usedP :=
      buildStep_usedP_mono _ _ _ _ hp
    rcases ih _ hp' q hq with h | h
    · rcases buildStep_profiles_cases _ _ _ _ h with h' | ⟨name, _, hqe, _, _⟩
      · exact Or.inl h'
      · right
        subst hqe
        intro hmem
        rcases scanLines_phones_new _ _ _ p hmem with h0 | h0
        · exact absurd h0 (List.not_mem_nil p)
        · exact h0 hp
    · exact Or.inr h

/-! ## Claim C3 -/

/-- Claim C3: donor exclusivity — for every page text, no email string
is in the emails list of two different emitted profiles, and no
normalized phone string is in the phones list of two different emitted
profiles (the run-scoped used sets consume each contact on first
attribution). -/
theorem c3_donor_exclusivity (text : String) :
    (donorProfiles text).Pairwise fun p q =>
      (∀ e ∈ p.emails, e ∉ q.emails) ∧ (∀ ph ∈ p.phones, ph ∉ q.phones) := by
  have h := donorLoop_preserves_inv (linesOf text)
    (List.range (linesOf text).length) ⟨[], [], []⟩
    ⟨fun p hp => absurd hp (List.not_mem_nil p), List.Pairwise.nil⟩
  exact h.2

theorem c3_donor_exclusivity_witness :
    (donorProfiles
        "John Smith\na@b.com\nxx\nyy\nzz\nJane Roe\nc@d.com\n12 555-123-4567").Pairwise
      fun p q =>
        (∀ e ∈ p.emails, e ∉ q.emails) ∧ (∀ ph ∈ p.phones, ph ∉ q.phones) :=
  c3_donor_exclusivity
    "John Smith\na@b.com\nxx\nyy\nzz\nJane Roe\nc@d.com\n12 555-123-4567"

/-! ## Claim C7 -/

/-- Claim C7: the emission gate — every emitted profile has a name
longer than 4 characters and a non-empty email or phone list; and the
text `"Al B\njohn@x.com"` yields no profile at all (indeed `Al B` does
not even match the name pattern, whose `[A-Z][a-z]+ [A-Z][a-z]+` shape
needs at least 5 characters). -/
theorem c7_name_gate :
    (∀ (text : String) (p : DonorProfile), p ∈ donorProfiles text →
      4 < p.name.length ∧ (p.emails ≠ [] ∨ p.phones ≠ [])) ∧
    donorProfiles "Al B\njohn@x.com" = [] := by
  constructor
  · intro text p hp
    rcases donorLoop_profiles_cases _ _ _ p hp with h | h
    · exact absurd h (List.not_mem_nil p)
    · exact h
  · rfl

theorem c7_name_gate_witness :
    4 < (DonorProfile.mk "John Smith" ["a@b.com"] []).name.length ∧
    ((DonorProfile.mk "John Smith" ["a@b.com"] []).emails ≠ [] ∨
      (DonorProfile.mk "John Smith" ["a@b.com"] []).phones ≠ []) :=
  c7_name_gate.1 "John Smith\na@b.com" ⟨"John Smith", ["a@b.com"], []⟩
    (by decide)

/-! ## Claim C9 -/

/-- Claim C9: on a line with a name match, every email and every
normalized phone found in the proximity window is in the used sets
after the step — with no assumption on whether the profile was emitted
or discarded by the gate — and a consumed contact never appears in any
profile emitted by later steps of the loop. -/
theorem c9_window_contacts_consumed (lines : List String) (st : BuildState)
    (i : Nat) (is : List Nat) (name : String)
    (hname : jsMatchFirst namePattern (lines.getD i "") = some name) :
    (∀ j ∈ windowIdxs lines.length i,
      ∀ e ∈ jsMatchAll emailPattern (lines.getD j ""),
        e ∈ (buildStep lines st i).usedE ∧
        ∀ q ∈ (donorLoop lines is (buildStep lines st i)).profiles,
          q ∈ (buildStep lines st i).profiles ∨ e ∉ q.emails) ∧
    (∀ j ∈ windowIdxs lines.length i,
      ∀ p ∈ (jsMatchAll phonePattern (lines.getD j "")).map normalizePhone,
        p ∈ (buildStep lines st i).usedP ∧
        ∀ q ∈ (donorLoop lines is (buildStep lines st i)).profiles,
          q ∈ (buildStep lines st i).profiles ∨ p ∉ q.phones) := by
  constructor
  · intro j hj e he
    have hE : e ∈ (buildStep lines st i).usedE := by
      rw [(buildStep_used_eq lines st i name hname).1]
      exact scanLines_line_emails_used lines _ _ j hj e he
    exact ⟨hE, donorLoop_used_email_stable lines is _ e hE⟩
  · intro j hj p hp
    have hP : p ∈ (buildStep lines st i).usedP := by
      rw [(buildStep_used_eq lines st i name hname).2]
      exact scanLines_line_phones_used lines _ _ j hj p hp
    exact ⟨hP, donorLoop_used_phone_stable lines is _ p hP⟩

theorem c9_window_contacts_consumed_witness :
    "a@b.com" ∈ (buildStep ["Jane Doe", "a@b.com"] ⟨[], [], []⟩ 0).usedE ∧
    ∀ q ∈ (donorLoop ["Jane Doe", "a@b.com"] [1]
        (buildStep ["Jane Doe", "a@b.com"] ⟨[], [], []⟩ 0)).profiles,
      q ∈ (buildStep ["Jane Doe", "a@b.com"] ⟨[], [], []⟩ 0).profiles ∨
        "a@b.com" ∉ q.emails :=
  (c9_window_contacts_consumed ["Jane Doe", "a@b.com"] ⟨[], [], []⟩ 0 [1]
      "Jane Doe" (by decide)).1 1 (by decide) "a@b.com" (by decide)

/-! ## Claim C8 -/

theorem collapseAux_sep_space (l : List Char) :
    ∀ b : Bool, ∀ c ∈ collapseAux b l, isPhoneSep c = true → c = ' ' := by
  induction l with
  | nil =>
    intro b c hc
    cases hc
  | cons d ds ih =>
    intro b c hc hsep
    rw [collapseAux] at hc
    by_cases hd : isPhoneSep d
    · rw [if_pos hd] at hc
      rcases List.mem_append.mp hc with h1 | h1
      · cases b with
        | false =>
          rcases List.mem_singleton.mp h1 with rfl
          rfl
        | true => cases h1
      · exact ih true c h1 hsep
    · rw [if_neg hd] at hc
      rcases List.mem_cons.mp hc with rfl | h1
      · exact absurd hsep hd
      · exact ih false c h1 hsep

theorem collapseAux_true_head (l : List Char) :
    ∀ c, (collapseAux true l).head? = some c → isPhoneSep c = false := by
  induction l with
  | nil =>
    intro c hc
    cases hc
  | cons d ds ih =>
    intro c hc
    rw [collapseAux] at hc
    by_cases hd : isPhoneSep d
    · rw [if_pos hd] at hc
      simp only [if_pos rfl, List.nil_append] at hc
      exact ih c hc
    · rw [if_neg hd] at hc
      injection hc with h
      subst h
      exact Bool.eq_false_iff.mpr hd

theorem collapseAux_chain (l : List Char) :
    ∀ b : Bool, (collapseAux b l).Chain'
      (fun a c => isPhoneSep a = true → isPhoneSep c = true → False) := by
  induction l with
  | nil =>
    intro b
    rw [collapseAux]
    exact List.chain'_nil
  | cons d ds ih =>
    intro b
    rw [collapseAux]
    by_cases hd : isPhoneSep d
    · rw [if_pos hd]
      cases b with
      | true =>
        simp only [if_pos rfl, List.nil_append]
        exact ih true
      | false =>
        simp only [if_neg Bool.false_ne_true, List.singleton_append]
        rw [List.chain'_cons']
        refine ⟨?_, ih true⟩
        intro c hc _ h2
        rw [collapseAux_true_head ds c hc] at h2
        cases h2
    · rw [if_neg hd]
      rw [List.chain'_cons']
      refine ⟨?_, ih false⟩
      intro c _ h1 _
      exact absurd h1 hd

theorem collapseAux_fix (l : List Char)
    (hsp : ∀ c ∈ l, isPhoneSep c = true → c = ' ')
    (hch : l.Chain'
      (fun a c => isPhoneSep a = true → isPhoneSep c = true → False)) :
    collapseAux false l = l := by
  induction l with
  | nil => rfl
  | cons d ds ih =>
    by_cases hd : isPhoneSep d
    · have hd' : d = ' ' := hsp d (List.mem_cons_self d ds) hd
      subst hd'
      cases ds with
      | nil => rfl
      | cons e es =>
        have he : isPhoneSep e = false := by
          rcases List.chain'_cons'.mp hch with ⟨hR, _⟩
          cases hee : isPhoneSep e with
          | false => rfl
          | true => exact (hR e rfl hd hee).elim
        have ihds : collapseAux false (e :: es) = e :: es :=
          ih (fun c hc hsep => hsp c (List.mem_cons_of_mem _ hc) hsep) hch.tail
        have h1 : collapseAux false (e :: es) = e :: collapseAux false es := by
          rw [collapseAux, if_neg (by simp [he])]
        rw [h1] at ihds
        injection ihds with _ h2
        rw [collapseAux, if_pos hd]
        simp only [if_neg Bool.false_ne_true, List.singleton_append]
        rw [collapseAux, if_neg (by simp [he]), h2]
    · have h1 : collapseAux false (d :: ds) = d :: collapseAux false ds := by
        rw [collapseAux, if_neg hd]
      rw [h1, ih (fun c hc hsep => hsp c (List.mem_cons_of_mem _ hc) hsep) hch.tail]

theorem dropWhile_head_not (p : Char → Bool) (l : List Char) :
    ∀ c, (l.dropWhile p).head? = some c → p c = false := by
  induction l with
  | nil =>
    intro c hc
    cases hc
  | cons d ds ih =>
    intro c hc
    by_cases hd : p d
    · rw [List.dropWhile_cons, if_pos hd] at hc
      exact ih c hc
    · rw [List.dropWhile_cons, if_neg hd] at hc
      injection hc with h
      subst h
      exact Bool.eq_false_iff.mpr hd

theorem dropWhile_idem (p : Char → Bool) (l : List Char) :
    (l.dropWhile p).dropWhile p = l.dropWhile p := by
  cases h : l.dropWhile p with
  | nil => rfl
  | cons c cs =>
    have hc : p c = false := dropWhile_head_not p l c (by rw [h]; rfl)
    rw [List.dropWhile_cons, if_neg (by simp [hc])]

theorem prefix_head_eq (l l' : List Char) (h : l <+: l') (hne : l ≠ []) :
    l.head? = l'.head? := by
  rcases h with ⟨r, rfl⟩
  cases l with
  | nil => exact absurd rfl hne
  | cons c cs => rfl

theorem jsTrimL_idem (l : List Char) : jsTrimL (jsTrimL l) = jsTrimL l := by
  have hpre : jsTrimL l <+: l.dropWhile isSpaceJS := by
    rw [← List.reverse_suffix]
    show (((l.dropWhile isSpaceJS).reverse.dropWhile isSpaceJS).reverse).reverse <:+ _
    rw [List.reverse_reverse]
    exact List.dropWhile_suffix _
  have hthead : ∀ c, (jsTrimL l).head? = some c → isSpaceJS c = false := by
    intro c hc
    have hne : jsTrimL l ≠ [] := by
      intro h
      rw [h] at hc
      cases hc
    rw [prefix_head_eq _ _ hpre hne] at hc
    exact dropWhile_head_not _ _ c hc
  have h1 : (jsTrimL l).dropWhile isSpaceJS = jsTrimL l := by
    cases ht : jsTrimL l with
    | nil => rfl
    | cons c cs =>
      have hc := hthead c (by rw [ht]; rfl)
      rw [List.dropWhile_cons, if_neg (by simp [hc])]
  show (((jsTrimL l).dropWhile isSpaceJS).reverse.dropWhile isSpaceJS).reverse =
    jsTrimL l
  rw [h1]
  show ((((l.dropWhile isSpaceJS).reverse.dropWhile
    isSpaceJS).reverse).reverse.dropWhile isSpaceJS).reverse = _
  rw [List.reverse_reverse, dropWhile_idem]
  rfl

theorem normalizeL_idem (l : List Char) :
    jsTrimL (collapseSeps (jsTrimL (collapseSeps l))) =
      jsTrimL (collapseSeps l) := by
  have hsp0 : ∀ c ∈ collapseSeps l, isPhoneSep c = true → c = ' ' :=
    collapseAux_sep_space l false
  have hch0 : (collapseSeps l).Chain'
      (fun a c => isPhoneSep a = true → isPhoneSep c = true → False) :=
    collapseAux_chain l false
  have hmem : ∀ c ∈ jsTrimL (collapseSeps l), c ∈ collapseSeps l := by
    intro c hc
    rw [show jsTrimL (collapseSeps l) =
      (((collapseSeps l).dropWhile isSpaceJS).reverse.dropWhile
        isSpaceJS).reverse from rfl, List.mem_reverse] at hc
    have hc2 := (List.dropWhile_sublist (l :=
      ((collapseSeps l).dropWhile isSpaceJS).reverse) isSpaceJS).mem hc
    rw [List.mem_reverse] at hc2
    exact (List.dropWhile_sublist isSpaceJS).mem hc2
  have hchY : (((collapseSeps l).dropWhile isSpaceJS).reverse.dropWhile
      isSpaceJS).Chain'
      (fun a c => isPhoneSep a = true → isPhoneSep c = true → False) := by
    have h1 := hch0.suffix (List.dropWhile_suffix isSpaceJS)
    have h2 : (((collapseSeps l).dropWhile isSpaceJS).reverse).Chain'
        (fun a c => isPhoneSep a = true → isPhoneSep c = true → False) := by
      rw [List.chain'_reverse]
      exact h1.imp fun a b h h1 h2 => h h2 h1
    exact h2.suffix (List.dropWhile_suffix isSpaceJS)
  have hchT : (jsTrimL (collapseSeps l)).Chain'
      (fun a c => isPhoneSep a = true → isPhoneSep c = true → False) := by
    show ((((collapseSeps l).dropWhile isSpaceJS).reverse.dropWhile
      isSpaceJS).reverse).Chain' _
    rw [List.chain'_reverse]
    exact hchY.imp fun a b h h1 h2 => h h2 h1
  have hA : collapseSeps (jsTrimL (collapseSeps l)) =
      jsTrimL (collapseSeps l) :=
    collapseAux_fix _ (fun c hc => hsp0 c (hmem c hc)) hchT
  rw [hA, jsTrimL_idem]

/-- Claim C8: phone normalization (collapse every run of dash, dot or
whitespace to a single space, then trim) is idempotent: normalizing an
already-normalized string returns it unchanged. -/
theorem c8_normalize_idempotent (s : String) :
    normalizePhone (normalizePhone s) = normalizePhone s := by
  unfold normalizePhone
  congr 1
  exact normalizeL_idem s.data

theorem c8_normalize_idempotent_witness :
    normalizePhone (normalizePhone " 12  555-123..4567 ") =
      normalizePhone " 12  555-123..4567 " :=
  c8_normalize_idempotent " 12  555-123..4567 "

end SearchPuppeteer

